import Mathlib

/-!
Verification of the VisionDoc AI retrieval pipeline (`app.py`).

The orchestration script `app.py` is embedded directly: corpus construction
(lines 143-156), the query turn (lines 171-189) and the guarded processing
block (lines 130-216) become Lean functions over explicit session state,
with the external providers (embedding, vision, LLM) passed in as oracle
functions returning `Option` (failure = `none`, standing for a raised
exception aborting the script run).

The repository modules `retriever.py` (FAISSRetriever), `reranker.py`
(simple_rerank), `chunking.py`, `vision.py`, `embeddings.py` and `llm.py`
are not part of the source tree; where a claim depends on their behaviour
they are modelled from the specification, and each such definition carries
a doc comment saying so.
-/

/-- Type tag of a chunk, as stored in the metadata dictionaries
`{"type": "text"}` / `{"type": "image"}` of `app.py`. -/
inductive Tag where
  | text
  | image
deriving DecidableEq, Repr

/-- Squared Euclidean distance between two integer vectors. -/
def sqDist (u v : List Int) : Int :=
  ((u.zip v).map (fun p => (p.1 - p.2) * (p.1 - p.2))).sum

/-- Modelled from the spec: `retriever.py` is not in the source tree.
The Vector Index holds the corpus embeddings together with the positional
type tags (`FAISSRetriever(embeddings, metadata)` in `app.py` line 156). -/
structure FAISSRetriever where
  embeddings : List (List Int)
  metadata : List Tag
deriving DecidableEq, Repr

/-- Modelled from the spec: similarity score of the chunk at position `i`
against the query vector, the negated squared distance (a FAISS flat L2
index ranks by ascending squared distance, so higher score = nearer). -/
def scoreAt (r : FAISSRetriever) (qv : List Int) (i : Nat) : Int :=
  -(sqDist qv (r.embeddings.getD i []))

/-- Ranking order on chunk positions: strictly higher score first, ties
broken by lower ordinal first. -/
def rankR (s : Nat → Int) (i j : Nat) : Prop :=
  s j < s i ∨ (s i = s j ∧ i ≤ j)

instance (s : Nat → Int) : DecidableRel (rankR s) := fun i j => by
  unfold rankR
  infer_instance

instance (s : Nat → Int) : IsTotal Nat (rankR s) where
  total i j := by
    unfold rankR
    omega

instance (s : Nat → Int) : IsTrans Nat (rankR s) where
  trans i j k hij hjk := by
    unfold rankR at *
    omega

/-- Modelled from the spec: the positions eligible under an optional type
filter — every position when the filter is `none`, otherwise exactly the
positions whose metadata tag equals the filter. -/
def FAISSRetriever.eligible (r : FAISSRetriever) (filterType : Option Tag) : List Nat :=
  (List.range r.embeddings.length).filter fun i =>
    match filterType with
    | none => true
    | some t => decide (r.metadata.getD i Tag.text = t)

/-- Modelled from the spec: `search(query_vector, top_k, filter_type)` ranks
the eligible positions by descending similarity (ties by lower ordinal) and
returns at most `top_k` of them; fewer eligible than `top_k` yields exactly
the eligible ones and zero eligible yields the empty list. -/
def FAISSRetriever.search (r : FAISSRetriever) (qv : List Int) (topK : Nat)
    (filterType : Option Tag) : List Nat :=
  ((r.eligible filterType).insertionSort (rankR (scoreAt r qv))).take topK

/-- Split a character list at spaces, accumulating the current word. -/
def splitWordsAux : List Char → List Char → List (List Char)
  | [], acc => [acc.reverse]
  | c :: cs, acc =>
      if c = ' ' then acc.reverse :: splitWordsAux cs []
      else splitWordsAux cs (c :: acc)

/-- The space-separated terms of a string. -/
def terms (s : String) : List (List Char) :=
  splitWordsAux s.data []

/-- Modelled from the spec: lexical term overlap between a query and a
document — the number of space-separated query terms that occur among the
document's terms. -/
def termOverlap (query doc : String) : Nat :=
  ((terms query).filter (fun w => (terms doc).contains w)).length

/-- Rerank order on index-document pairs: strictly higher overlap score
first; equal scores keep the lower input index first (stability). -/
def rerankR (query : String) (a b : Nat × String) : Prop :=
  termOverlap query b.2 < termOverlap query a.2 ∨
    (termOverlap query a.2 = termOverlap query b.2 ∧ a.1 ≤ b.1)

instance (q : String) : DecidableRel (rerankR q) := fun a b => by
  unfold rerankR
  infer_instance

instance (q : String) : IsTotal (Nat × String) (rerankR q) where
  total a b := by
    unfold rerankR
    omega

instance (q : String) : IsTrans (Nat × String) (rerankR q) where
  trans a b c hab hbc := by
    unfold rerankR at *
    omega

/-- Modelled from the spec: the candidates paired with their input
positions, reordered by the rerank order. -/
def rerankIndexed (query : String) (docs : List String) : List (Nat × String) :=
  docs.enum.insertionSort (rerankR query)

/-- Modelled from the spec: `reranker.py` is not in the source tree.
`simple_rerank(query, docs)` reorders the candidate chunk texts by a
lexical-overlap relevance signal, independent of the vector metric. -/
def simple_rerank (query : String) (docs : List String) : List String :=
  (rerankIndexed query docs).map Prod.snd

/-- Corpus construction, `app.py` lines 143-153: every segmenter chunk is
tagged `text`; when an image file is present, the vision description is
appended as one more chunk tagged `image`, guarded by Python truthiness
(`if vision_text:`), so `None` and the empty string are both skipped. -/
def buildCorpus (segmented : List String) (imgPresent : Bool)
    (visionResult : Option String) : List String × List Tag :=
  let chunks := segmented
  let metadata := segmented.map fun _ => Tag.text
  if imgPresent then
    match visionResult with
    | some v =>
        if v ≠ "" then
          (chunks ++ ["Image description: " ++ v], metadata ++ [Tag.image])
        else (chunks, metadata)
    | none => (chunks, metadata)
  else (chunks, metadata)

/-- The session values built by a successful ingestion run
(`app.py` lines 143-156). -/
structure IngestState where
  chunks : List String
  metadata : List Tag
  retriever : FAISSRetriever
deriving DecidableEq, Repr

/-- Ingestion, `app.py` lines 143-156: build the corpus, embed every chunk
(an embedding-provider failure raises and aborts, modelled as `none`) and
build the retriever over `(embeddings, metadata)`. -/
def ingest (segmented : List String) (imgPresent : Bool)
    (visionResult : Option String)
    (embedFn : List String → Option (List (List Int))) : Option IngestState :=
  let c := buildCorpus segmented imgPresent visionResult
  (embedFn c.1).map fun embs => ⟨c.1, c.2, ⟨embs, c.2⟩⟩

/-- The retrieval part of a query turn, `app.py` lines 177-183: search with
`top_k=5`, fetch the chunk texts for the returned ids, rerank them and join
the top 3 with a blank-line separator. Returns (ids, reranked, context). -/
def assembleContext (query : String) (chunks : List String)
    (r : FAISSRetriever) (filterType : Option Tag) (qv : List Int) :
    List Nat × List String × String :=
  let ids := r.search qv 5 filterType
  let retrieved := ids.map fun i => chunks.getD i ""
  let reranked := simple_rerank query retrieved
  (ids, reranked, String.intercalate "\n\n" (reranked.take 3))

/-- The data a fully successful query turn produces. -/
structure TurnSuccess where
  ids : List Nat
  reranked : List String
  context : String
  answer : String
deriving DecidableEq, Repr

/-- One query turn, `app.py` lines 175-185: embed the query, retrieve and
assemble the context, call the LLM. A provider failure raises, aborting the
turn (`none`); there is no intermediate error signalling of any kind. -/
def queryTurn (chunks : List String) (r : FAISSRetriever)
    (filterType : Option Tag) (query : String)
    (embedFn : List String → Option (List (List Int)))
    (llmFn : String → String → Option String) : Option TurnSuccess :=
  match embedFn [query] with
  | none => none
  | some qembs =>
      let a := assembleContext query chunks r filterType (qembs.headD [])
      (llmFn a.2.2 query).map fun ans => ⟨a.1, a.2.1, a.2.2, ans⟩

/-- History update of a turn, `app.py` line 189: `(query, answer)` is
appended only on the success path; a turn aborted by an exception leaves
`st.session_state.history` untouched. -/
def turnHistory (history : List (String × String)) (query : String) :
    Option TurnSuccess → List (String × String)
  | some t => history ++ [(query, t.answer)]
  | none => history

/-- What one script run leaves observable: the session values exposed to
the query interface of that run (if ingestion ran and succeeded) and the
cross-run session state, which in `app.py` is only
`st.session_state.history`. -/
structure RunOutcome where
  exposed : Option IngestState
  history : List (String × String)
deriving DecidableEq, Repr

/-- One full Streamlit script run, `app.py` lines 130-216. Processing runs
only under `if txt_file and groq_key and jina_key:`; any adapter failure
raises, aborting the run with nothing exposed and the history untouched;
otherwise the query block runs under `if run and query:`. The corpus and
retriever are plain locals of the run — they are rebuilt every run and are
never stored in `st.session_state`. -/
def scriptRun (history : List (String × String)) (txtFile : Option String)
    (groqKey jinaKey : String) (imgPresent : Bool)
    (visionResult : Option String) (segmentFn : String → List String)
    (embedFn : List String → Option (List (List Int)))
    (runBtn : Bool) (query : String) (filterType : Option Tag)
    (llmFn : String → String → Option String) : RunOutcome :=
  if txtFile.isSome ∧ groqKey ≠ "" ∧ jinaKey ≠ "" then
    match ingest (segmentFn (txtFile.getD "")) imgPresent visionResult embedFn with
    | none => ⟨none, history⟩
    | some st =>
        if runBtn ∧ query ≠ "" then
          let res := queryTurn st.chunks st.retriever filterType query embedFn llmFn
          ⟨some st, turnHistory history query res⟩
        else ⟨some st, history⟩
  else ⟨none, history⟩

/-! ## Concrete fixtures used by witnesses and counterexamples -/

/-- The corpus of end-to-end scenario A: two text chunks and one image
chunk, with embeddings placing the image chunk nearest to `[5, 5]`. -/
def rA : FAISSRetriever :=
  ⟨[[1, 0], [0, 1], [5, 5]], [Tag.text, Tag.text, Tag.image]⟩

/-- A one-chunk text-only corpus (no image-tagged chunk at all). -/
def rT : FAISSRetriever := ⟨[[0]], [Tag.text]⟩

/-- A concrete always-succeeding embedding oracle. -/
def embC : List String → Option (List (List Int)) :=
  fun c => some (c.map fun _ => [0, 0])

/-- A concrete always-failing embedding oracle (provider exception). -/
def embFail : List String → Option (List (List Int)) := fun _ => none

/-- A concrete always-succeeding LLM oracle whose answer records the
context it was handed. -/
def llmC : String → String → Option String := fun c _ => some ("A:" ++ c)

/-- A concrete one-chunk segmenter. -/
def segC : String → List String := fun s => [s]

/-! ## Claim theorems -/

theorem search_sorted (r : FAISSRetriever) (qv : List Int) (k : Nat)
    (f : Option Tag) :
    (r.search qv k f).Pairwise (rankR (scoreAt r qv)) := by
  apply List.Pairwise.sublist (List.take_sublist _ _)
  exact List.sorted_insertionSort (rankR (scoreAt r qv)) _

/-- C1: every chunk id returned by `search` under a type filter `t` is in
range and carries metadata tag `t`; when fewer than `top_k` chunks carry
the tag, the result is exactly the matching chunks (a permutation of them,
ranked), and zero eligible chunks give the empty result, not an error. -/
theorem search_filter_correct (r : FAISSRetriever) (qv : List Int) (k : Nat)
    (t : Tag) (hlen : r.metadata.length = r.embeddings.length) :
    (∀ id ∈ r.search qv k (some t),
      id < r.metadata.length ∧ r.metadata.getD id Tag.text = t) ∧
    ((r.eligible (some t)).length < k →
      (r.search qv k (some t)).Perm (r.eligible (some t))) ∧
    (r.eligible (some t) = [] → r.search qv k (some t) = []) := by
  refine ⟨?_, ?_, ?_⟩
  · intro id hid
    have h1 : id ∈ (r.eligible (some t)).insertionSort (rankR (scoreAt r qv)) :=
      List.mem_of_mem_take hid
    rw [List.mem_insertionSort] at h1
    simp only [FAISSRetriever.eligible, List.mem_filter, List.mem_range,
      decide_eq_true_eq] at h1
    exact ⟨by omega, h1.2⟩
  · intro hlt
    have hle : ((r.eligible (some t)).insertionSort (rankR (scoreAt r qv))).length ≤ k := by
      rw [List.length_insertionSort]
      omega
    rw [FAISSRetriever.search, List.take_of_length_le hle]
    exact List.perm_insertionSort _ _
  · intro he
    rw [FAISSRetriever.search, he]
    simp

/-- C1 witness: scenario A — three chunks tagged [text, text, image],
filter = image, `top_k = 5`; only one chunk is eligible. -/
theorem search_filter_correct_witness :
    rA.metadata.length = rA.embeddings.length ∧
    ((∀ id ∈ rA.search [5, 5] 5 (some Tag.image),
        id < rA.metadata.length ∧ rA.metadata.getD id Tag.text = Tag.image) ∧
     ((rA.eligible (some Tag.image)).length < 5 →
        (rA.search [5, 5] 5 (some Tag.image)).Perm (rA.eligible (some Tag.image))) ∧
     (rA.eligible (some Tag.image) = [] → rA.search [5, 5] 5 (some Tag.image) = [])) :=
  ⟨rfl, search_filter_correct rA [5, 5] 5 Tag.image rfl⟩

/-- C4: `search` returns at most `top_k` ids, in an order where similarity
scores are non-increasing and equal scores are resolved by the lower
ordinal first. -/
theorem search_ranked (r : FAISSRetriever) (qv : List Int) (k : Nat)
    (f : Option Tag) :
    (r.search qv k f).length ≤ k ∧
    (r.search qv k f).Pairwise (fun i j =>
      scoreAt r qv j ≤ scoreAt r qv i ∧
      (scoreAt r qv i = scoreAt r qv j → i ≤ j)) := by
  constructor
  · simp only [FAISSRetriever.search, List.length_take]
    omega
  · apply (search_sorted r qv k f).imp
    intro i j h
    unfold rankR at h
    omega

/-- C4 witness: the ranking properties evaluated on the scenario-A corpus
with no filter. -/
theorem search_ranked_witness :
    (rA.search [5, 5] 5 none).length ≤ 5 ∧
    (rA.search [5, 5] 5 none).Pairwise (fun i j =>
      scoreAt rA [5, 5] j ≤ scoreAt rA [5, 5] i ∧
      (scoreAt rA [5, 5] i = scoreAt rA [5, 5] j → i ≤ j)) :=
  search_ranked rA [5, 5] 5 none

/-- C9: `simple_rerank` returns a permutation of its input (same length,
same multiset, every chunk exactly once), and candidates with equal
overlap score keep their relative input order. -/
theorem rerank_is_permutation (q : String) (docs : List String) :
    (simple_rerank q docs).Perm docs ∧
    (simple_rerank q docs).length = docs.length ∧
    (rerankIndexed q docs).Pairwise (fun a b =>
      termOverlap q a.2 = termOverlap q b.2 → a.1 ≤ b.1) := by
  have hperm : (simple_rerank q docs).Perm docs := by
    have h := (List.perm_insertionSort (rerankR q) docs.enum).map Prod.snd
    rwa [List.enum_map_snd] at h
  refine ⟨hperm, hperm.length_eq, ?_⟩
  apply (List.sorted_insertionSort (rerankR q) docs.enum).imp
  intro a b h
  unfold rerankR at h
  omega

/-- C9 witness: the permutation and stability properties evaluated on a
concrete query and candidate list with an overlap tie. -/
theorem rerank_is_permutation_witness :
    (simple_rerank "a b" ["x b", "a a", "c"]).Perm ["x b", "a a", "c"] ∧
    (simple_rerank "a b" ["x b", "a a", "c"]).length = (["x b", "a a", "c"] : List String).length ∧
    (rerankIndexed "a b" ["x b", "a a", "c"]).Pairwise (fun a b =>
      termOverlap "a b" a.2 = termOverlap "a b" b.2 → a.1 ≤ b.1) :=
  rerank_is_permutation "a b" ["x b", "a a", "c"]

/-- Case analysis of the corpus construction: either no image chunk is
appended (no image file, vision absent, or vision empty), or exactly one
description chunk tagged `image` is appended at the end. -/
theorem buildCorpus_eq (s : List String) (imgP : Bool) (v : Option String) :
    buildCorpus s imgP v = (s, s.map fun _ => Tag.text) ∨
    ∃ vt, vt ≠ "" ∧
      buildCorpus s imgP v =
        (s ++ ["Image description: " ++ vt], (s.map fun _ => Tag.text) ++ [Tag.image]) := by
  unfold buildCorpus
  cases imgP with
  | false => left; rfl
  | true =>
    cases v with
    | none => left; rfl
    | some vt =>
      by_cases h : vt = ""
      · left; simp [h]
      · right; exact ⟨vt, h, by simp [h]⟩

/-- A positional lookup inside a constant-mapped list returns the constant. -/
theorem getD_map_const {α β : Type} (s : List α) (b d : β) (i : Nat)
    (h : i < s.length) : (s.map fun _ => b).getD i d = b := by
  induction s generalizing i with
  | nil => simp at h
  | cons x xs ih =>
    cases i with
    | zero => rfl
    | succ n => exact ih n (by simpa using h)

/-- C6: after corpus construction, `len(chunks) == len(metadata)`, the
segmenter chunks sit at the same positions in both lists with tag `text`,
the appended image chunk (when present) carries tag `image`, and the
invariant survives ingestion into the retriever. -/
theorem corpus_invariant (s : List String) (imgP : Bool) (v : Option String)
    (embedFn : List String → Option (List (List Int))) :
    (buildCorpus s imgP v).1.length = (buildCorpus s imgP v).2.length ∧
    (buildCorpus s imgP v).1.take s.length = s ∧
    (∀ i, i < s.length → (buildCorpus s imgP v).2.getD i Tag.image = Tag.text) ∧
    ((buildCorpus s imgP v).2.length = s.length + 1 →
      (buildCorpus s imgP v).2.getD s.length Tag.text = Tag.image) ∧
    (∀ st, ingest s imgP v embedFn = some st →
      st.chunks.length = st.metadata.length ∧ st.retriever.metadata = st.metadata) := by
  have hmain : (buildCorpus s imgP v).1.length = (buildCorpus s imgP v).2.length ∧
      (buildCorpus s imgP v).1.take s.length = s ∧
      (∀ i, i < s.length → (buildCorpus s imgP v).2.getD i Tag.image = Tag.text) ∧
      ((buildCorpus s imgP v).2.length = s.length + 1 →
        (buildCorpus s imgP v).2.getD s.length Tag.text = Tag.image) := by
    rcases buildCorpus_eq s imgP v with h | ⟨vt, hvt, h⟩
    · rw [h]
      refine ⟨by simp, by simp, ?_, ?_⟩
      · intro i hi
        exact getD_map_const s Tag.text Tag.image i hi
      · intro hlen
        simp at hlen
    · rw [h]
      refine ⟨by simp, by simp, ?_, ?_⟩
      · intro i hi
        rw [List.getD_append _ _ _ _ (by simpa using hi)]
        exact getD_map_const s Tag.text Tag.image i hi
      · intro _
        rw [List.getD_append_right _ _ _ _ (by simp)]
        simp
  refine ⟨hmain.1, hmain.2.1, hmain.2.2.1, hmain.2.2.2, ?_⟩
  intro st hst
  cases he : embedFn (buildCorpus s imgP v).1 with
  | none => rw [ingest, he] at hst; simp at hst
  | some embs =>
      rw [ingest, he] at hst
      simp at hst
      rw [← hst]
      exact ⟨hmain.1, rfl⟩

/-- C6 witness: the invariant evaluated on a concrete two-chunk corpus
with an appended image description. -/
theorem corpus_invariant_witness :
    (buildCorpus ["a", "b"] true (some "dog")).1.length =
      (buildCorpus ["a", "b"] true (some "dog")).2.length ∧
    (buildCorpus ["a", "b"] true (some "dog")).1.take (["a", "b"] : List String).length = ["a", "b"] ∧
    (∀ i, i < (["a", "b"] : List String).length →
      (buildCorpus ["a", "b"] true (some "dog")).2.getD i Tag.image = Tag.text) ∧
    ((buildCorpus ["a", "b"] true (some "dog")).2.length = (["a", "b"] : List String).length + 1 →
      (buildCorpus ["a", "b"] true (some "dog")).2.getD (["a", "b"] : List String).length Tag.text = Tag.image) ∧
    (∀ st, ingest ["a", "b"] true (some "dog") embC = some st →
      st.chunks.length = st.metadata.length ∧ st.retriever.metadata = st.metadata) :=
  corpus_invariant ["a", "b"] true (some "dog") embC

/-- A query turn completes whenever the query embedding succeeds and the
LLM call succeeds; search, rerank and context assembly are total. -/
theorem queryTurn_isSome (chunks : List String) (r : FAISSRetriever)
    (f : Option Tag) (q : String)
    (embedFn : List String → Option (List (List Int)))
    (llmFn : String → String → Option String)
    (h1 : (embedFn [q]).isSome) (h2 : ∀ c, (llmFn c q).isSome) :
    (queryTurn chunks r f q embedFn llmFn).isSome := by
  rcases Option.isSome_iff_exists.mp h1 with ⟨qe, he⟩
  rcases Option.isSome_iff_exists.mp
    (h2 (assembleContext q chunks r f (qe.headD [])).2.2) with ⟨a, hl⟩
  simp only [queryTurn, he]
  rw [hl]
  rfl

/-- C5: when the Vision Describer returns an absence-signal (`None`) or an
empty description, no image chunk and no image metadata entry is appended,
ingestion behaves exactly as a text-only ingestion, and on any resulting
session a query turn whose providers succeed completes. -/
theorem vision_absence_degrades_gracefully (s : List String) (imgP : Bool)
    (v : Option String) (embedFn : List String → Option (List (List Int)))
    (habs : v = none ∨ v = some "") :
    buildCorpus s imgP v = (s, s.map fun _ => Tag.text) ∧
    ingest s imgP v embedFn = ingest s false none embedFn ∧
    (∀ st, ingest s imgP v embedFn = some st →
      st.chunks = s ∧ st.metadata = s.map (fun _ => Tag.text) ∧
      ∀ (f : Option Tag) (q : String)
        (qEmbFn : List String → Option (List (List Int)))
        (llmFn : String → String → Option String),
        (qEmbFn [q]).isSome → (∀ c, (llmFn c q).isSome) →
        (queryTurn st.chunks st.retriever f q qEmbFn llmFn).isSome) := by
  have hbc : buildCorpus s imgP v = (s, s.map fun _ => Tag.text) := by
    rcases habs with h | h <;> subst h <;> cases imgP <;> simp [buildCorpus]
  refine ⟨hbc, ?_, ?_⟩
  · have hbc2 : buildCorpus s false none = (s, s.map fun _ => Tag.text) := rfl
    simp only [ingest, hbc, hbc2]
  · intro st hst
    simp only [ingest, hbc] at hst
    cases he : embedFn s with
    | none => rw [he] at hst; simp at hst
    | some embs =>
        rw [he] at hst
        simp at hst
        rw [← hst]
        refine ⟨rfl, ?_, fun f q qEmbFn llmFn hq hl =>
          queryTurn_isSome _ _ f q qEmbFn llmFn hq hl⟩
        simp

/-- C5 witness: a two-chunk document with an image file whose vision call
failed (absence-signal `None`); the corpus stays text-only. -/
theorem vision_absence_degrades_gracefully_witness :
    ((none : Option String) = none ∨ (none : Option String) = some "") ∧
    (buildCorpus ["a", "b"] true none = (["a", "b"], ["a", "b"].map fun _ => Tag.text) ∧
     ingest ["a", "b"] true none embC = ingest ["a", "b"] false none embC ∧
     (∀ st, ingest ["a", "b"] true none embC = some st →
       st.chunks = ["a", "b"] ∧ st.metadata = ["a", "b"].map (fun _ => Tag.text) ∧
       ∀ (f : Option Tag) (q : String)
         (qEmbFn : List String → Option (List (List Int)))
         (llmFn : String → String → Option String),
         (qEmbFn [q]).isSome → (∀ c, (llmFn c q).isSome) →
         (queryTurn st.chunks st.retriever f q qEmbFn llmFn).isSome)) :=
  ⟨Or.inl rfl,
   vision_absence_degrades_gracefully ["a", "b"] true none embC (Or.inl rfl)⟩

/-- C2: the query turn requests exactly `top_k = 5` ids from the index,
never more than 5 ids come back, the context is the separator-joined
concatenation of at most the top 3 reranked chunk texts (all of them when
fewer than 3 exist), and a successful turn reports exactly these values. -/
theorem topk_five_context_three (chunks : List String) (r : FAISSRetriever)
    (f : Option Tag) (q : String)
    (embedFn : List String → Option (List (List Int)))
    (llmFn : String → String → Option String)
    (qembs : List (List Int)) (hq : embedFn [q] = some qembs) :
    (assembleContext q chunks r f (qembs.headD [])).1 =
      r.search (qembs.headD []) 5 f ∧
    (assembleContext q chunks r f (qembs.headD [])).1.length ≤ 5 ∧
    (assembleContext q chunks r f (qembs.headD [])).2.2 =
      String.intercalate "\n\n"
        ((assembleContext q chunks r f (qembs.headD [])).2.1.take 3) ∧
    ((assembleContext q chunks r f (qembs.headD [])).2.1.length < 3 →
      (assembleContext q chunks r f (qembs.headD [])).2.1.take 3 =
        (assembleContext q chunks r f (qembs.headD [])).2.1) ∧
    (∀ t, queryTurn chunks r f q embedFn llmFn = some t →
      t.ids = (assembleContext q chunks r f (qembs.headD [])).1 ∧
      t.reranked = (assembleContext q chunks r f (qembs.headD [])).2.1 ∧
      t.context = (assembleContext q chunks r f (qembs.headD [])).2.2) := by
  refine ⟨rfl, ?_, rfl, ?_, ?_⟩
  · have h5 : (r.search (qembs.headD []) 5 f).length ≤ 5 := by
      simp only [FAISSRetriever.search, List.length_take]
      omega
    exact h5
  · intro hlt
    exact List.take_of_length_le (by omega)
  · intro t ht
    simp only [queryTurn, hq] at ht
    cases hl : llmFn (assembleContext q chunks r f (qembs.headD [])).2.2 q with
    | none => rw [hl] at ht; simp at ht
    | some a =>
        rw [hl] at ht
        simp only [Option.map_some', Option.some.injEq] at ht
        rw [← ht]
        exact ⟨rfl, rfl, rfl⟩

/-- C2 witness: a two-chunk corpus where both conjuncts evaluate on a
concrete query whose embedding succeeds. -/
theorem topk_five_context_three_witness :
    embC ["green"] = some [[0, 0]] ∧
    ((assembleContext "green" ["hello world", "green tea"] rA none (([[0, 0]] : List (List Int)).headD [])).1 =
       rA.search (([[0, 0]] : List (List Int)).headD []) 5 none ∧
     (assembleContext "green" ["hello world", "green tea"] rA none (([[0, 0]] : List (List Int)).headD [])).1.length ≤ 5 ∧
     (assembleContext "green" ["hello world", "green tea"] rA none (([[0, 0]] : List (List Int)).headD [])).2.2 =
       String.intercalate "\n\n"
         ((assembleContext "green" ["hello world", "green tea"] rA none (([[0, 0]] : List (List Int)).headD [])).2.1.take 3) ∧
     ((assembleContext "green" ["hello world", "green tea"] rA none (([[0, 0]] : List (List Int)).headD [])).2.1.length < 3 →
       (assembleContext "green" ["hello world", "green tea"] rA none (([[0, 0]] : List (List Int)).headD [])).2.1.take 3 =
         (assembleContext "green" ["hello world", "green tea"] rA none (([[0, 0]] : List (List Int)).headD [])).2.1) ∧
     (∀ t, queryTurn ["hello world", "green tea"] rA none "green" embC llmC = some t →
       t.ids = (assembleContext "green" ["hello world", "green tea"] rA none (([[0, 0]] : List (List Int)).headD [])).1 ∧
       t.reranked = (assembleContext "green" ["hello world", "green tea"] rA none (([[0, 0]] : List (List Int)).headD [])).2.1 ∧
       t.context = (assembleContext "green" ["hello world", "green tea"] rA none (([[0, 0]] : List (List Int)).headD [])).2.2)) :=
  ⟨rfl, topk_five_context_three ["hello world", "green tea"] rA none "green"
    embC llmC [[0, 0]] rfl⟩

/-- C7: `(query, answer)` is appended to the history exactly when the whole
turn succeeds, a failed turn leaves the history unchanged, and the updated
history always extends the old one (append-only). -/
theorem history_appended_iff_turn_succeeds (h : List (String × String))
    (chunks : List String) (r : FAISSRetriever) (f : Option Tag) (q : String)
    (embedFn : List String → Option (List (List Int)))
    (llmFn : String → String → Option String) :
    (∀ t, queryTurn chunks r f q embedFn llmFn = some t →
      turnHistory h q (queryTurn chunks r f q embedFn llmFn) = h ++ [(q, t.answer)]) ∧
    (queryTurn chunks r f q embedFn llmFn = none →
      turnHistory h q (queryTurn chunks r f q embedFn llmFn) = h) ∧
    (∃ tail, turnHistory h q (queryTurn chunks r f q embedFn llmFn) = h ++ tail) ∧
    ((queryTurn chunks r f q embedFn llmFn).isSome ↔
      turnHistory h q (queryTurn chunks r f q embedFn llmFn) ≠ h) := by
  cases res : queryTurn chunks r f q embedFn llmFn with
  | none =>
      refine ⟨?_, ?_, ⟨[], by simp [turnHistory]⟩, ?_⟩
      · intro t ht
        simp at ht
      · intro _
        rfl
      · simp [turnHistory]
  | some t =>
      refine ⟨?_, ?_, ⟨[(q, t.answer)], rfl⟩, ?_⟩
      · intro t' ht'
        simp at ht'
        rw [ht']
        rfl
      · intro hnone
        simp at hnone
      · simp only [Option.isSome_some, turnHistory, true_iff]
        intro heq
        have := congrArg List.length heq
        simp at this

/-- C7 witness: the history contract evaluated on a concrete turn whose
providers succeed. -/
theorem history_appended_iff_turn_succeeds_witness :
    (∀ t, queryTurn ["hello"] rT none "q" embC llmC = some t →
      turnHistory [] "q" (queryTurn ["hello"] rT none "q" embC llmC) = [] ++ [("q", t.answer)]) ∧
    (queryTurn ["hello"] rT none "q" embC llmC = none →
      turnHistory [] "q" (queryTurn ["hello"] rT none "q" embC llmC) = []) ∧
    (∃ tail, turnHistory [] "q" (queryTurn ["hello"] rT none "q" embC llmC) = [] ++ tail) ∧
    ((queryTurn ["hello"] rT none "q" embC llmC).isSome ↔
      turnHistory [] "q" (queryTurn ["hello"] rT none "q" embC llmC) ≠ []) :=
  history_appended_iff_turn_succeeds [] ["hello"] rT none "q" embC llmC

/-- C8 (amended): when search yields zero candidate ids under the active
filter, the code raises no error and emits no empty-result signal — the
context becomes the empty string and answer generation is invoked with it;
the turn's outcome is exactly whatever the generator returns. There is no
`EmptyResultError` anywhere in the query path. -/
theorem empty_search_is_passed_to_generation (chunks : List String)
    (r : FAISSRetriever) (f : Option Tag) (q : String)
    (embedFn : List String → Option (List (List Int)))
    (llmFn : String → String → Option String)
    (qembs : List (List Int)) (hq : embedFn [q] = some qembs)
    (hempty : r.search (qembs.headD []) 5 f = []) :
    queryTurn chunks r f q embedFn llmFn =
      (llmFn "" q).map fun ans => ⟨[], [], "", ans⟩ := by
  have ha : assembleContext q chunks r f (qembs.headD []) = ([], [], "") := by
    unfold assembleContext
    rw [hempty]
    rfl
  simp only [queryTurn, hq, ha]

/-- C8 (amended) witness: a corpus with no image-tagged chunk queried under
the image filter; the LLM is called on the empty context and the turn
completes as an ordinary success. -/
theorem empty_search_is_passed_to_generation_witness :
    embC ["q"] = some [[0, 0]] ∧
    rT.search (([[0, 0]] : List (List Int)).headD []) 5 (some Tag.image) = [] ∧
    queryTurn ["hello"] rT (some Tag.image) "q" embC llmC =
      (llmC "" "q").map (fun ans => ⟨[], [], "", ans⟩) :=
  ⟨rfl, by decide,
   empty_search_is_passed_to_generation ["hello"] rT (some Tag.image) "q"
     embC llmC [[0, 0]] rfl (by decide)⟩

/-- C8 counterexample: concretely, with one text chunk and filter = image,
`search` returns zero ids, yet the caller receives no distinguishable
empty-result signal: the generator is invoked on the empty context (its
answer records the context it saw) and the turn is appended to the history
as a normal success — refuting the claim that the zero-candidate case
yields an `EmptyResultError` and never reaches answer generation. -/
theorem no_empty_result_error_counterexample :
    rT.search [0, 0] 5 (some Tag.image) = [] ∧
    queryTurn ["hello"] rT (some Tag.image) "q" embC llmC =
      some ⟨[], [], "", "A:"⟩ ∧
    turnHistory [] "q" (queryTurn ["hello"] rT (some Tag.image) "q" embC llmC) =
      [("q", "A:")] := by
  refine ⟨by decide, by decide, by decide⟩

/-- C10: no processing happens unless a text document is uploaded and both
keys are supplied — the run outcome is `⟨none, history⟩` whatever the
segmenter, providers or query are (so an image alone is never ingested and
the vision key gates even text-only documents); conversely a run that
exposes a session had a document and both keys. -/
theorem no_processing_without_doc_and_keys (h : List (String × String))
    (txt : Option String) (gk jk : String) (imgP : Bool) (v : Option String)
    (seg : String → List String)
    (emb : List String → Option (List (List Int))) (btn : Bool) (q : String)
    (f : Option Tag) (llm : String → String → Option String) :
    ((txt = none ∨ gk = "" ∨ jk = "") →
      scriptRun h txt gk jk imgP v seg emb btn q f llm = ⟨none, h⟩) ∧
    ((scriptRun h txt gk jk imgP v seg emb btn q f llm).exposed.isSome →
      txt.isSome ∧ gk ≠ "" ∧ jk ≠ "") := by
  constructor
  · intro hguard
    unfold scriptRun
    rw [if_neg]
    rintro ⟨h1, h2, h3⟩
    rcases hguard with hg | hg | hg
    · rw [hg] at h1
      simp at h1
    · exact h2 hg
    · exact h3 hg
  · intro hexp
    by_cases hg : txt.isSome ∧ gk ≠ "" ∧ jk ≠ ""
    · exact hg
    · unfold scriptRun at hexp
      rw [if_neg hg] at hexp
      simp at hexp

/-- C10 witness: an image uploaded alone (no text document) with both keys
present and all providers healthy still yields no processing at all. -/
theorem no_processing_without_doc_and_keys_witness :
    (((none : Option String) = none ∨ "g" = "" ∨ "j" = "") →
      scriptRun [] none "g" "j" true (some "desc") segC embC true "q" none llmC =
        ⟨none, []⟩) ∧
    ((scriptRun [] none "g" "j" true (some "desc") segC embC true "q" none llmC).exposed.isSome →
      (none : Option String).isSome ∧ "g" ≠ "" ∧ "j" ≠ "") :=
  no_processing_without_doc_and_keys [] none "g" "j" true (some "desc") segC
    embC true "q" none llmC

/-- C3 (amended): an ingestion attempt that fails at the embedding adapter
aborts the script run: the cross-run session state (the history) is
unchanged and no corpus or index — partial or otherwise — is exposed to
queries. The prior Corpus and Vector Index are, however, not retained:
they are locals of each run, so after a failed attempt nothing is
queryable until a later successful run. -/
theorem ingest_failure_aborts_run (h : List (String × String))
    (txt : Option String) (gk jk : String) (imgP : Bool) (v : Option String)
    (seg : String → List String)
    (emb : List String → Option (List (List Int))) (btn : Bool) (q : String)
    (f : Option Tag) (llm : String → String → Option String)
    (hfail : emb (buildCorpus (seg (txt.getD "")) imgP v).1 = none) :
    scriptRun h txt gk jk imgP v seg emb btn q f llm = ⟨none, h⟩ := by
  unfold scriptRun
  by_cases hg : txt.isSome ∧ gk ≠ "" ∧ jk ≠ ""
  · rw [if_pos hg]
    have hi : ingest (seg (txt.getD "")) imgP v emb = none := by
      simp [ingest, hfail]
    rw [hi]
  · rw [if_neg hg]

/-- C3 (amended) witness: a run whose embedding provider fails leaves the
empty history unchanged and exposes nothing. -/
theorem ingest_failure_aborts_run_witness :
    embFail (buildCorpus (segC ((some "gamma" : Option String).getD "")) false none).1 = none ∧
    scriptRun [] (some "gamma") "g" "j" false none segC embFail true "qq" none llmC =
      ⟨none, []⟩ :=
  ⟨rfl, ingest_failure_aborts_run [] (some "gamma") "g" "j" false none segC
    embFail true "qq" none llmC rfl⟩

/-- C3 counterexample: a successful run over document "alpha" exposes a
built session, but the next run, re-ingesting document "beta" with a
failing embedding provider, exposes nothing at all — the prior Corpus and
Vector Index are not "intact and queryable" after the failed attempt,
because `app.py` keeps them only as locals of each run and rebuilds them
from the current inputs every run; only the history survives runs. -/
theorem prior_session_not_retained_counterexample :
    (scriptRun [] (some "alpha") "g" "j" false none segC embC false "" none llmC).exposed =
      some ⟨["alpha"], [Tag.text], ⟨[[0, 0]], [Tag.text]⟩⟩ ∧
    (scriptRun [] (some "beta") "g" "j" false none segC embFail false "" none llmC).exposed =
      none ∧
    (scriptRun [] (some "beta") "g" "j" false none segC embFail false "" none llmC).history =
      [] := by
  refine ⟨by decide, by decide, by decide⟩
